import Mathlib

/-!
Shallow embedding of the deephaven-questdb bridge:
* `QdbWriter` models `src/docker/cryptofeed/src/questdb_writer_queued.py`
  (class `QuestDBWriterQueued`): the bounded asyncio queue, the ILP line
  construction of `write_trade` / `write_orderbook` / `write_orderbook_compact`,
  and one iteration of `_writer_loop`.
* `QdbBackend` models `src/data/deephaven/notebooks/qdb_backend.py`
  (class `QuestDBBackend`): schema resolution, the provider callback protocol,
  the WAL watch loop, paging via ROW_NUMBER, and the per-table thread registry.
Python strings are Lean `String`s, Python floats are `ℚ` (their arithmetic is
modelled exactly; the source performs the same operations on IEEE doubles),
database query outcomes are `Except`/explicit parameters.
-/

namespace QdbWriter

/-- State of `QuestDBWriterQueued`: the asyncio queue contents (FIFO, head =
next to be consumed), its `max_queue_size`, `batch_size`, the `_dropped_count`
counter and whether `self.sock` is a live connection. -/
structure WriterState where
  queue : List String
  maxQueueSize : Nat
  batchSize : Nat
  dropped : Nat
  connected : Bool
deriving Repr, DecidableEq

/-- Model of `asyncio.Queue.put_nowait`: the put raises `QueueFull` (returns
`false`) iff the queue is bounded (`maxsize > 0`) and already holds at least
`maxsize` items; otherwise the item is appended at the back. It never blocks. -/
def put_nowait (st : WriterState) (line : String) : WriterState × Bool :=
  if 0 < st.maxQueueSize ∧ st.maxQueueSize ≤ st.queue.length then
    (st, false)
  else
    ({ st with queue := st.queue ++ [line] }, true)

/-- The `try: put_nowait ... except QueueFull: self._dropped_count += 1`
pattern shared by `write_trade`, `write_orderbook`, `write_orderbook_compact`
and the requeue step of `_writer_loop`. -/
def enqueueOrDrop (st : WriterState) (line : String) : WriterState :=
  match put_nowait st line with
  | (st2, true) => st2
  | (_, false) => { st with dropped := st.dropped + 1 }

/-- A sequence of producer enqueues with no intervening drain. -/
def enqueueAll (st : WriterState) (lines : List String) : WriterState :=
  lines.foldl enqueueOrDrop st

/-- Number of puts of `lines` that hit a full queue when enqueued from `st`;
this is the ghost count of discarded entries, defined by the queue semantics
alone. -/
def putsDropped (st : WriterState) : List String → Nat
  | [] => 0
  | l :: ls =>
    match put_nowait st l with
    | (st2, true) => putsDropped st2 ls
    | (_, false) => putsDropped { st with dropped := st.dropped + 1 } ls + 1

theorem enqueueAll_queue_dropped (lines : List String) (q : List String)
    (C bs d : Nat) (c : Bool) (hC : 0 < C) :
    enqueueAll ⟨q, C, bs, d, c⟩ lines =
      ⟨q ++ lines.take (C - q.length), C, bs, d + (lines.length - (C - q.length)), c⟩ := by
  induction lines generalizing q d with
  | nil => simp [enqueueAll]
  | cons l ls ih =>
    by_cases h : C ≤ q.length
    · have hfree : C - q.length = 0 := Nat.sub_eq_zero_of_le h
      have hstep : enqueueOrDrop ⟨q, C, bs, d, c⟩ l = ⟨q, C, bs, d + 1, c⟩ := by
        simp [enqueueOrDrop, put_nowait, hC, h]
      have := ih q (d + 1)
      simp only [enqueueAll, List.foldl_cons] at *
      rw [hstep, this, hfree]
      simp [hfree, Nat.sub_zero]
      omega
    · push_neg at h
      have hcond : ¬ (0 < C ∧ C ≤ q.length) := by omega
      have hstep : enqueueOrDrop ⟨q, C, bs, d, c⟩ l = ⟨q ++ [l], C, bs, d, c⟩ := by
        simp [enqueueOrDrop, put_nowait, hcond]
      have := ih (q ++ [l]) d
      simp only [enqueueAll, List.foldl_cons] at *
      rw [hstep, this]
      have htake : (l :: ls).take (C - q.length) = l :: ls.take (C - (q.length + 1)) := by
        have : C - q.length = (C - (q.length + 1)) + 1 := by omega
        rw [this, List.take_succ_cons]
      simp [htake, List.append_assoc]
      omega

/-- C4: with queue capacity `C > 0` and `C + k` producer enqueues before any
drain, the first `C` lines are queued in order, exactly `k` are dropped, and
the dropped-count is `k`. (No enqueue blocks or raises: `enqueueOrDrop` is a
total function returning normally on every input.) -/
theorem backpressure_drops (C k bs : Nat) (c : Bool) (hC : 0 < C)
    (lines : List String) (hlen : lines.length = C + k) :
    (enqueueAll ⟨[], C, bs, 0, c⟩ lines).queue = lines.take C ∧
    (enqueueAll ⟨[], C, bs, 0, c⟩ lines).dropped = k := by
  rw [enqueueAll_queue_dropped lines [] C bs 0 c hC]
  simp [hlen]

/-- Witness for C4: capacity 2, five enqueues: first two queued, three dropped. -/
theorem backpressure_drops_witness :
    (enqueueAll ⟨[], 2, 100, 0, true⟩ ["a", "b", "c", "d", "e"]).queue = ["a", "b"] ∧
    (enqueueAll ⟨[], 2, 100, 0, true⟩ ["a", "b", "c", "d", "e"]).dropped = 3 :=
  backpressure_drops 2 3 100 true (by decide) ["a", "b", "c", "d", "e"] (by decide)

/-- Python truthiness of an optional float: `None` and `0.0` are falsy. -/
def pyTruthyQ : Option ℚ → Bool
  | none => false
  | some q => decide (q ≠ 0)

/-- Python `int()` on a float value: truncation toward zero. -/
def pyInt (q : ℚ) : ℤ :=
  if 0 ≤ q then ⌊q⌋ else ⌈q⌉

/-- Timestamp conversion common to all three writers:
`int(timestamp * 1_000_000_000) if timestamp else int(receipt_timestamp * 1_000_000_000)`. -/
def ilpTimestampNs (timestamp : Option ℚ) (receipt : ℚ) : ℤ :=
  if pyTruthyQ timestamp then pyInt (timestamp.getD 0 * 1000000000)
  else pyInt (receipt * 1000000000)

/-- Python `x or default` on an optional string (both `None` and `""` fall back). -/
def pyOrStr (x : Option String) (d : String) : String :=
  match x with
  | none => d
  | some s => if s = "" then d else s

/-- Input of `write_trade`: the fields the function reads from the `data` dict.
Numeric `price`/`amount` appear only interpolated into the line, so they are
carried as their decimal rendering. -/
structure TradeEvent where
  exchange : String
  symbol : String
  side : String
  ttype : Option String
  priceRepr : String
  amountRepr : String
  trade_id : Option String
  timestamp : Option ℚ
  receipt_timestamp : ℚ
deriving Repr, DecidableEq

/-- Tags segment of a trade line:
`f"exchange={exchange},symbol={symbol},side={side},type={trade_type}"`. -/
def tradeTags (e : TradeEvent) : String :=
  "exchange=" ++ e.exchange ++ ",symbol=" ++ e.symbol ++ ",side=" ++ e.side ++
    ",type=" ++ pyOrStr e.ttype "unknown"

/-- Fields segment of a trade line: `price`, `amount`, and — when `id` is
present — `trade_id="{trade_id}"` (the raw id between double quotes, with no
escaping applied). -/
def tradeFields (e : TradeEvent) : String :=
  let base := "price=" ++ e.priceRepr ++ ",amount=" ++ e.amountRepr
  match e.trade_id with
  | none => base
  | some tid => base ++ ",trade_id=\"" ++ tid ++ "\""

/-- The ILP line built by `write_trade`: `f"{table_name},{tags} {fields} {timestamp_ns}\n"`. -/
def tradeIlpLine (e : TradeEvent) : String :=
  "trades," ++ tradeTags e ++ " " ++ tradeFields e ++ " " ++
    toString (ilpTimestampNs e.timestamp e.receipt_timestamp) ++ "\n"

/-- State effect of `write_trade`: build the line, then `put_nowait` with
drop-and-count on a full queue. -/
def write_trade (st : WriterState) (e : TradeEvent) : WriterState :=
  enqueueOrDrop st (tradeIlpLine e)

/-- Model of `str.replace('"', '\\"')` at character level: every double quote
is replaced by backslash-quote. -/
def escapeChars : List Char → List Char
  | [] => []
  | c :: cs => if c = '"' then '\\' :: '"' :: escapeChars cs else c :: escapeChars cs

/-- String wrapper for `escapeChars`. -/
def escapeQuotes (s : String) : String :=
  ⟨escapeChars s.data⟩

/-- A character list is quote-escaped when every double quote in it is consumed
by a preceding backslash. -/
def quoteEscapedChars : List Char → Bool
  | [] => true
  | c :: cs =>
    if c = '\\' then
      match cs with
      | [] => true
      | _ :: ds => quoteEscapedChars ds
    else if c = '"' then false
    else quoteEscapedChars cs

/-- String wrapper for `quoteEscapedChars`. -/
def quoteEscaped (s : String) : Bool :=
  quoteEscapedChars s.data

theorem quoteEscapedChars_esc (d : Char) (cs : List Char) :
    quoteEscapedChars ('\\' :: d :: cs) = quoteEscapedChars cs := by
  simp [quoteEscapedChars]

theorem quoteEscapedChars_cons_ne (c : Char) (cs : List Char)
    (h1 : c ≠ '\\') (h2 : c ≠ '"') :
    quoteEscapedChars (c :: cs) = quoteEscapedChars cs := by
  rw [quoteEscapedChars.eq_def]
  simp [h1, h2]

theorem escapeChars_quoteEscaped (l : List Char) (h : '\\' ∉ l) :
    quoteEscapedChars (escapeChars l) = true := by
  induction l with
  | nil => rfl
  | cons c cs ih =>
    have hc : c ≠ '\\' := fun hcc => h (hcc ▸ List.mem_cons_self c cs)
    have hcs : '\\' ∉ cs := fun hm => h (List.mem_cons_of_mem c hm)
    by_cases hq : c = '"'
    · subst hq
      have he : escapeChars ('"' :: cs) = '\\' :: '"' :: escapeChars cs := by
        simp [escapeChars]
      rw [he, quoteEscapedChars_esc]
      exact ih hcs
    · simp only [escapeChars, if_neg hq]
      rw [quoteEscapedChars_cons_ne c _ hc hq]
      exact ih hcs

/-- Input of `write_orderbook_compact`: exchange/symbol tags, the book
timestamp, and the JSON renderings of the bid/ask level arrays produced by
`json.dumps` (their construction from the book levels is numeric formatting,
carried here as the resulting strings). -/
structure BookEvent where
  exchange : String
  symbol : String
  timestamp : Option ℚ
  bidsJson : String
  asksJson : String
deriving Repr, DecidableEq

/-- Tags segment of a compact orderbook line. -/
def compactTags (b : BookEvent) : String :=
  "exchange=" ++ b.exchange ++ ",symbol=" ++ b.symbol

/-- Fields segment of a compact orderbook line: the two JSON strings are
quote-escaped and double-quoted: `f'bids="{bids_escaped}",asks="{asks_escaped}"'`. -/
def compactFields (b : BookEvent) : String :=
  "bids=\"" ++ escapeQuotes b.bidsJson ++ "\",asks=\"" ++ escapeQuotes b.asksJson ++ "\""

/-- The ILP line built by `write_orderbook_compact`. -/
def compactIlpLine (b : BookEvent) (receipt : ℚ) : String :=
  "orderbooks_compact," ++ compactTags b ++ " " ++ compactFields b ++ " " ++
    toString (ilpTimestampNs b.timestamp receipt) ++ "\n"

/-- State effect of `write_orderbook_compact`. -/
def write_orderbook_compact (st : WriterState) (b : BookEvent) (receipt : ℚ) : WriterState :=
  enqueueOrDrop st (compactIlpLine b receipt)

/-- Field list of the expanded orderbook writer: `bid_{i}_price`, `bid_{i}_size`
(resp. `ask_`) for the first `min depth levels.length` levels. -/
def levelFields (lbl : String) (levels : List (String × String)) (depth : Nat) : List String :=
  ((levels.take depth).enum.map fun p =>
    [lbl ++ "_" ++ toString p.1 ++ "_price=" ++ p.2.1,
     lbl ++ "_" ++ toString p.1 ++ "_size=" ++ p.2.2]).flatten

/-- The ILP line built by `write_orderbook`. -/
def bookIlpLine (exchange symbol : String) (bids asks : List (String × String))
    (depth : Nat) (tsNs : ℤ) : String :=
  "orderbooks," ++ "exchange=" ++ exchange ++ ",symbol=" ++ symbol ++ " " ++
    String.intercalate "," (levelFields "bid" bids depth ++ levelFields "ask" asks depth) ++
    " " ++ toString tsNs ++ "\n"

/-- State effect of `write_orderbook`. -/
def write_orderbook (st : WriterState) (exchange symbol : String)
    (bids asks : List (String × String)) (depth : Nat)
    (timestamp : Option ℚ) (receipt : ℚ) : WriterState :=
  enqueueOrDrop st (bookIlpLine exchange symbol bids asks depth (ilpTimestampNs timestamp receipt))

/-- Accessor `get_dropped_count`. -/
def get_dropped_count (st : WriterState) : Nat :=
  st.dropped

/-- C9: the nanosecond timestamp of a trade line is `receipt_timestamp * 1e9`
(truncated to an integer) when the event timestamp is absent or falsy (Python
treats `0` as falsy), and `timestamp * 1e9` otherwise. -/
theorem trade_timestamp_fallback (rc : ℚ) :
    ilpTimestampNs none rc = pyInt (rc * 1000000000) ∧
    ilpTimestampNs (some 0) rc = pyInt (rc * 1000000000) ∧
    ∀ t : ℚ, t ≠ 0 → ilpTimestampNs (some t) rc = pyInt (t * 1000000000) := by
  refine ⟨rfl, by simp [ilpTimestampNs, pyTruthyQ], fun t ht => ?_⟩
  simp [ilpTimestampNs, pyTruthyQ, ht]

/-- Witness for C9 at concrete timestamps. -/
theorem trade_timestamp_fallback_witness :
    ilpTimestampNs (some 2) 7 = 2000000000 ∧ ilpTimestampNs (some 0) 7 = 7000000000 := by
  have h2 := (trade_timestamp_fallback 7).2.2 2 (by norm_num)
  have h0 := (trade_timestamp_fallback 7).2.1
  refine ⟨h2.trans ?_, h0.trans ?_⟩ <;> simp [pyInt] <;> norm_num

/-- Concrete trade event whose exchange-assigned id contains a double quote. -/
def quoteTrade : TradeEvent :=
  ⟨"coinbase", "BTC-USD", "buy", none, "100.5", "2", some "a\"b", some 1, 1⟩

/-- C6 counterexample: `write_trade` emits the string field `trade_id`
double-quoted but with its internal double quote unescaped (`trade_id="a"b"`),
whereas escaping as the claim requires would give `a\"b`; the emitted value is
not quote-escaped. -/
theorem trade_id_not_escaped :
    tradeIlpLine quoteTrade =
      "trades,exchange=coinbase,symbol=BTC-USD,side=buy,type=unknown price=100.5,amount=2,trade_id=\"a\"b\" 1000000000\n" ∧
    escapeQuotes "a\"b" = "a\\\"b" ∧
    quoteEscaped "a\"b" = false := by
  have hts : ilpTimestampNs quoteTrade.timestamp quoteTrade.receipt_timestamp = 1000000000 := by
    norm_num [quoteTrade, ilpTimestampNs, pyTruthyQ, pyInt]
  have h1 : tradeIlpLine quoteTrade =
      "trades," ++ tradeTags quoteTrade ++ " " ++ tradeFields quoteTrade ++ " " ++
        toString (ilpTimestampNs quoteTrade.timestamp quoteTrade.receipt_timestamp) ++ "\n" := rfl
  refine ⟨?_, by decide, by decide⟩
  rw [h1, hts]
  decide

/-- C6 amended: every emitted line has the shape
`table,tags fields timestamp_ns\n` with an integer nanosecond timestamp; in
`write_orderbook_compact` the string field values (the bids/asks JSON) are
double-quoted with internal double quotes escaped; in `write_trade` the
`trade_id` string field is double-quoted but its content is emitted raw,
without escaping. -/
theorem wire_format_amended :
    (∀ (b : BookEvent) (r : ℚ),
      compactIlpLine b r =
        "orderbooks_compact," ++ compactTags b ++ " " ++
          ("bids=\"" ++ escapeQuotes b.bidsJson ++ "\",asks=\"" ++ escapeQuotes b.asksJson ++ "\"") ++
          " " ++ toString (ilpTimestampNs b.timestamp r) ++ "\n") ∧
    (∀ s : String, '\\' ∉ s.data → quoteEscaped (escapeQuotes s) = true) ∧
    (∀ (e : TradeEvent) (tid : String), e.trade_id = some tid →
      tradeIlpLine e =
        "trades," ++ tradeTags e ++ " " ++
          ("price=" ++ e.priceRepr ++ ",amount=" ++ e.amountRepr ++ ",trade_id=\"" ++ tid ++ "\"") ++
          " " ++ toString (ilpTimestampNs e.timestamp e.receipt_timestamp) ++ "\n") := by
  refine ⟨fun b r => rfl, fun s h => escapeChars_quoteEscaped s.data h, fun e tid h => ?_⟩
  simp only [tradeIlpLine, tradeFields, h]

/-- Witness for the amended C6 at concrete inputs. -/
theorem wire_format_amended_witness :
    quoteEscaped (escapeQuotes "he\"llo") = true ∧
    tradeIlpLine quoteTrade =
      "trades," ++ tradeTags quoteTrade ++ " " ++
        ("price=" ++ quoteTrade.priceRepr ++ ",amount=" ++ quoteTrade.amountRepr ++
          ",trade_id=\"" ++ "a\"b" ++ "\"") ++
        " " ++ toString (ilpTimestampNs quoteTrade.timestamp quoteTrade.receipt_timestamp) ++ "\n" :=
  ⟨wire_format_amended.2.1 "he\"llo" (by decide),
   wire_format_amended.2.2 quoteTrade "a\"b" rfl⟩

/-- One iteration of `_writer_loop`. `connectOk` is the outcome of `_connect`
when attempted; `sendOk` is the outcome of `sock.sendall` on the batch. With no
connection and a failing connect, the iteration sleeps and leaves the state
unchanged. Otherwise it drains up to `batch_size` entries (waiting for the
first; an empty queue times the wait out and continues) and transmits them as
one write; on a socket error the connection is marked dead (`self.sock = None`)
and every batch entry is re-enqueued with `put_nowait`, counting each entry
that no longer fits as dropped, then the loop backs off before the next
iteration reconnects. The surrounding `try/except` means the iteration always
returns normally. -/
def writer_loop_iter (st : WriterState) (connectOk sendOk : Bool) : WriterState :=
  if st.connected = false ∧ connectOk = false then st
  else
    let st1 := { st with connected := true }
    match st1.queue with
    | [] => st1
    | _ :: _ =>
      let batch := st1.queue.take st1.batchSize
      let st2 := { st1 with queue := st1.queue.drop st1.batchSize }
      if sendOk then st2
      else enqueueAll { st2 with connected := false } batch

/-- C7: when transmission of a nonempty batch fails, the iteration marks the
connection dead, re-enqueues the batch entries after the remaining queue
(best-effort, bounded by capacity), and increments the dropped-count once per
entry that no longer fits; the iteration itself returns normally, so nothing
surfaces to producers. -/
theorem transmission_failure_recovery (st : WriterState) (cOk : Bool)
    (hconn : st.connected = true) (hne : st.queue ≠ []) (hC : 0 < st.maxQueueSize) :
    (writer_loop_iter st cOk false).connected = false ∧
    (writer_loop_iter st cOk false).queue =
      st.queue.drop st.batchSize ++
        (st.queue.take st.batchSize).take
          (st.maxQueueSize - (st.queue.drop st.batchSize).length) ∧
    (writer_loop_iter st cOk false).dropped =
      st.dropped +
        ((st.queue.take st.batchSize).length -
          (st.maxQueueSize - (st.queue.drop st.batchSize).length)) := by
  obtain ⟨q, C, bs, d, c⟩ := st
  simp only at hconn hne hC
  subst hconn
  cases q with
  | nil => exact absurd rfl hne
  | cons a as =>
    have hstep : writer_loop_iter ⟨a :: as, C, bs, d, true⟩ cOk false =
        enqueueAll ⟨(a :: as).drop bs, C, bs, d, false⟩ ((a :: as).take bs) := by
      simp [writer_loop_iter]
    rw [hstep, enqueueAll_queue_dropped _ _ _ _ _ _ hC]
    simp

/-- Witness for C7: connected writer with capacity 2, batch size 3, queue
holding 3 entries; the failed send re-enqueues two of them and drops one. -/
theorem transmission_failure_recovery_witness :
    (writer_loop_iter ⟨["x", "y", "z"], 2, 3, 0, true⟩ true false).connected = false ∧
    (writer_loop_iter ⟨["x", "y", "z"], 2, 3, 0, true⟩ true false).queue =
      (["x", "y", "z"].drop 3) ++
        ((["x", "y", "z"].take 3).take (2 - (["x", "y", "z"].drop 3).length)) ∧
    (writer_loop_iter ⟨["x", "y", "z"], 2, 3, 0, true⟩ true false).dropped =
      0 + ((["x", "y", "z"].take 3).length - (2 - (["x", "y", "z"].drop 3).length)) :=
  transmission_failure_recovery ⟨["x", "y", "z"], 2, 3, 0, true⟩ true rfl
    (by decide) (by decide)

/-- The producer- and writer-side operations that touch the queue and the
dropped counter. -/
inductive WriterOp where
  | trade (e : TradeEvent)
  | orderbook (exchange symbol : String) (bids asks : List (String × String))
      (depth : Nat) (timestamp : Option ℚ) (receipt : ℚ)
  | orderbookCompact (b : BookEvent) (receipt : ℚ)
  | loopIter (connectOk sendOk : Bool)

/-- Interpretation of one operation on the writer state. -/
def applyOp (st : WriterState) : WriterOp → WriterState
  | .trade e => write_trade st e
  | .orderbook ex sy b a dep ts r => write_orderbook st ex sy b a dep ts r
  | .orderbookCompact b r => write_orderbook_compact st b r
  | .loopIter cOk sOk => writer_loop_iter st cOk sOk

/-- Ghost count of the entries discarded by the requeue path of one loop
iteration, defined by the queue semantics alone. -/
def loopIterDrops (st : WriterState) (connectOk sendOk : Bool) : Nat :=
  if st.connected = false ∧ connectOk = false then 0
  else
    let st1 := { st with connected := true }
    match st1.queue with
    | [] => 0
    | _ :: _ =>
      let batch := st1.queue.take st1.batchSize
      let st2 := { st1 with queue := st1.queue.drop st1.batchSize }
      if sendOk then 0
      else putsDropped { st2 with connected := false } batch

/-- Ghost count of the entries an operation discards. -/
def opDrops (st : WriterState) : WriterOp → Nat
  | .trade e => putsDropped st [tradeIlpLine e]
  | .orderbook ex sy b a dep ts r =>
      putsDropped st [bookIlpLine ex sy b a dep (ilpTimestampNs ts r)]
  | .orderbookCompact b r => putsDropped st [compactIlpLine b r]
  | .loopIter cOk sOk => loopIterDrops st cOk sOk

/-- Run a sequence of operations. -/
def runOps (st : WriterState) (ops : List WriterOp) : WriterState :=
  ops.foldl applyOp st

/-- Total ghost count of discarded entries along a run. -/
def traceDrops (st : WriterState) : List WriterOp → Nat
  | [] => 0
  | op :: rest => opDrops st op + traceDrops (applyOp st op) rest

theorem enqueueAll_dropped (lines : List String) (st : WriterState) :
    (enqueueAll st lines).dropped = st.dropped + putsDropped st lines := by
  induction lines generalizing st with
  | nil => simp [enqueueAll, putsDropped]
  | cons l ls ih =>
    by_cases hfull : 0 < st.maxQueueSize ∧ st.maxQueueSize ≤ st.queue.length
    · have h1 : enqueueOrDrop st l = { st with dropped := st.dropped + 1 } := by
        simp [enqueueOrDrop, put_nowait, hfull]
      have h2 : putsDropped st (l :: ls) =
          putsDropped { st with dropped := st.dropped + 1 } ls + 1 := by
        simp [putsDropped, put_nowait, hfull]
      simp only [enqueueAll, List.foldl_cons]
      rw [h1, h2]
      have := ih { st with dropped := st.dropped + 1 }
      simp only [enqueueAll] at this
      rw [this]
      omega
    · have h1 : enqueueOrDrop st l = { st with queue := st.queue ++ [l] } := by
        simp [enqueueOrDrop, put_nowait, hfull]
      have h2 : putsDropped st (l :: ls) =
          putsDropped { st with queue := st.queue ++ [l] } ls := by
        simp [putsDropped, put_nowait, hfull]
      simp only [enqueueAll, List.foldl_cons]
      rw [h1, h2]
      have := ih { st with queue := st.queue ++ [l] }
      simp only [enqueueAll] at this
      rw [this]

theorem applyOp_dropped (st : WriterState) (op : WriterOp) :
    (applyOp st op).dropped = st.dropped + opDrops st op := by
  cases op with
  | trade e => exact enqueueAll_dropped [tradeIlpLine e] st
  | orderbook ex sy b a dep ts r =>
      exact enqueueAll_dropped [bookIlpLine ex sy b a dep (ilpTimestampNs ts r)] st
  | orderbookCompact b r => exact enqueueAll_dropped [compactIlpLine b r] st
  | loopIter cOk sOk =>
      simp only [applyOp, writer_loop_iter, opDrops, loopIterDrops]
      split
      · simp
      · cases hq : ({ st with connected := true } : WriterState).queue with
        | nil => simp
        | cons a as =>
          simp only []
          split
          · simp
          · exact enqueueAll_dropped _ _

/-- C10: across any sequence of trade, orderbook, compact-orderbook and
writer-loop operations, `get_dropped_count` equals the starting count plus the
exact number of entries discarded along the run; in particular the counter is
monotonically non-decreasing and is never reset. -/
theorem dropped_count_exact (st : WriterState) (ops : List WriterOp) :
    get_dropped_count (runOps st ops) = st.dropped + traceDrops st ops ∧
    st.dropped ≤ get_dropped_count (runOps st ops) := by
  suffices h : get_dropped_count (runOps st ops) = st.dropped + traceDrops st ops by
    exact ⟨h, by omega⟩
  induction ops generalizing st with
  | nil => simp [runOps, traceDrops, get_dropped_count]
  | cons op rest ih =>
    simp only [runOps, List.foldl_cons, traceDrops, get_dropped_count] at *
    rw [ih (applyOp st op), applyOp_dropped]
    omega

end QdbWriter

namespace QdbBackend

/-- One row of `wal_transactions(table)` as read by the watch loop: the
transaction id and the nullable `rowCount`. -/
structure WalTxn where
  seqTxn : Nat
  rowCount : Option Nat
deriving Repr, DecidableEq

/-- The loop-carried state of `_wal_watch_loop`: `last_txn_id` and `last_size`. -/
structure WatchSt where
  lastTxnId : Nat
  lastSize : Nat
deriving Repr, DecidableEq

/-- One WAL-tracking iteration of `_wal_watch_loop` past the sleep: `newTxns`
is the result of the `sequencerTxn > last_txn_id` query, `fullCount` the value
`count(*)` would return if consulted. With no new transactions nothing
happens. Otherwise `last_txn_id` advances to the last transaction, the new
total is the running total plus the sum of the non-null row counts — or the
full count when every row count is NULL — and `size_cb` is invoked with the
new total unconditionally. Returns the new state and the reported size, if
any. -/
def walStep (st : WatchSt) (newTxns : List WalTxn) (fullCount : Nat) :
    WatchSt × Option Nat :=
  if h : newTxns = [] then (st, none)
  else
    let lastTxn := (newTxns.getLast h).seqTxn
    let rowCounts := newTxns.filterMap (fun t => t.rowCount)
    let currentSize := if rowCounts.isEmpty then fullCount else st.lastSize + rowCounts.sum
    (⟨lastTxn, currentSize⟩, some currentSize)

/-- One `count(*)`-polling iteration (the non-WAL fallback mode): the callback
fires only when the count strictly exceeds the running total. -/
def fallbackStep (st : WatchSt) (fullCount : Nat) : WatchSt × Option Nat :=
  if st.lastSize < fullCount then (⟨st.lastTxnId, fullCount⟩, some fullCount)
  else (st, none)

/-- Query results observed by one WAL-mode iteration. -/
structure WalObs where
  newTxns : List WalTxn
  fullCount : Nat
deriving Repr, DecidableEq

/-- Sizes reported to `size_cb` along a run of WAL-mode iterations. -/
def runWal (st : WatchSt) : List WalObs → List Nat
  | [] => []
  | obs :: rest =>
    match walStep st obs.newTxns obs.fullCount with
    | (st2, some n) => n :: runWal st2 rest
    | (st2, none) => runWal st2 rest

/-- Sizes reported to `size_cb` along a run of fallback-mode iterations. -/
def runFallback (st : WatchSt) : List Nat → List Nat
  | [] => []
  | c :: rest =>
    match fallbackStep st c with
    | (st2, some n) => n :: runFallback st2 rest
    | (st2, none) => runFallback st2 rest

/-- The store-consistency condition for a WAL trace: whenever an iteration has
new transactions but none carries a row count (so the loop falls back to
`count(*)`), the full count is at least the running total — the append-only
store never reports fewer rows than already accounted for. -/
def walObsOk (st : WatchSt) : List WalObs → Bool
  | [] => true
  | obs :: rest =>
    (obs.newTxns.isEmpty || !(obs.newTxns.filterMap (fun t => t.rowCount)).isEmpty ||
      decide (st.lastSize ≤ obs.fullCount)) &&
    walObsOk (walStep st obs.newTxns obs.fullCount).1 rest

/-- C1 counterexample: with running total 5, a new WAL transaction whose
`rowCount` is NULL and a `count(*)` still equal to 5 make the loop invoke
`size_cb(5)` — a callback whose value does not exceed the last observed
total, refuting the "invoked only when the new total exceeds the last
observed" part of the claim. -/
theorem size_callback_on_unchanged_total :
    runWal ⟨0, 5⟩ [⟨[⟨1, none⟩], 5⟩] = [5] ∧ ¬ (5 : Nat) > 5 := by
  decide

theorem runWal_chain (trace : List WalObs) (st : WatchSt)
    (h : walObsOk st trace = true) :
    List.Chain' (· ≤ ·) (st.lastSize :: runWal st trace) := by
  induction trace generalizing st with
  | nil => simp [runWal]
  | cons obs rest ih =>
    by_cases hemp : obs.newTxns = []
    · have hstep : walStep st obs.newTxns obs.fullCount = (st, none) := by
        simp [walStep, hemp]
      have hrw : runWal st (obs :: rest) = runWal st rest := by
        simp [runWal, hstep]
      have hok : walObsOk st rest = true := by
        have h2 := h
        simp only [walObsOk, hstep, Bool.and_eq_true] at h2
        exact h2.2
      rw [hrw]
      exact ih st hok
    · have hstep : walStep st obs.newTxns obs.fullCount =
          (⟨(obs.newTxns.getLast hemp).seqTxn,
            if (obs.newTxns.filterMap (fun t => t.rowCount)).isEmpty then obs.fullCount
            else st.lastSize + (obs.newTxns.filterMap (fun t => t.rowCount)).sum⟩,
           some (if (obs.newTxns.filterMap (fun t => t.rowCount)).isEmpty then obs.fullCount
            else st.lastSize + (obs.newTxns.filterMap (fun t => t.rowCount)).sum)) := by
        simp [walStep, hemp]
      have hrw : runWal st (obs :: rest) =
          (if (obs.newTxns.filterMap (fun t => t.rowCount)).isEmpty then obs.fullCount
            else st.lastSize + (obs.newTxns.filterMap (fun t => t.rowCount)).sum) ::
            runWal ⟨(obs.newTxns.getLast hemp).seqTxn,
              if (obs.newTxns.filterMap (fun t => t.rowCount)).isEmpty then obs.fullCount
              else st.lastSize + (obs.newTxns.filterMap (fun t => t.rowCount)).sum⟩ rest := by
        simp [runWal, hstep]
      have hok := h
      simp only [walObsOk, hstep, Bool.and_eq_true] at hok
      rw [hrw, List.chain'_cons]
      refine ⟨?_, ih _ hok.2⟩
      by_cases hrc : (obs.newTxns.filterMap (fun t => t.rowCount)).isEmpty
      · rw [if_pos hrc]
        have h1 : obs.newTxns.isEmpty = false := by
          simp [List.isEmpty_iff, hemp]
        have hcond := hok.1
        rw [h1, hrc] at hcond
        simp at hcond
        exact hcond
      · rw [if_neg hrc]
        exact Nat.le_add_right _ _

theorem runFallback_chain (counts : List Nat) (st : WatchSt) :
    List.Chain' (· ≤ ·) (st.lastSize :: runFallback st counts) := by
  induction counts generalizing st with
  | nil => simp [runFallback]
  | cons c rest ih =>
    by_cases hlt : st.lastSize < c
    · have hstep : fallbackStep st c = (⟨st.lastTxnId, c⟩, some c) := by
        simp [fallbackStep, hlt]
      have hrw : runFallback st (c :: rest) = c :: runFallback ⟨st.lastTxnId, c⟩ rest := by
        simp [runFallback, hstep]
      rw [hrw, List.chain'_cons]
      exact ⟨Nat.le_of_lt hlt, ih ⟨st.lastTxnId, c⟩⟩
    · have hstep : fallbackStep st c = (st, none) := by
        simp [fallbackStep, hlt]
      have hrw : runFallback st (c :: rest) = runFallback st rest := by
        simp [runFallback, hstep]
      rw [hrw]
      exact ih st

/-- C1 amended: in both watch modes the sequence of totals reported to
`size_cb` (starting from the initial total) is monotonically non-decreasing —
in WAL mode under the append-only-store condition `walObsOk` (a `count(*)`
taken after a detected change never returns fewer rows than the running
total); the callback may, however, also fire with an unchanged total when new
transactions carry no usable row count. -/
theorem growth_monotonicity (st : WatchSt) (trace : List WalObs) (counts : List Nat)
    (h : walObsOk st trace = true) :
    List.Chain' (· ≤ ·) (st.lastSize :: runWal st trace) ∧
    List.Chain' (· ≤ ·) (st.lastSize :: runFallback st counts) :=
  ⟨runWal_chain trace st h, runFallback_chain counts st⟩

/-- Concrete WAL trace: a counted transaction, then a NULL-rowCount
transaction resolved by a full count. -/
def demoTrace : List WalObs :=
  [⟨[⟨1, some 3⟩], 0⟩, ⟨[⟨2, none⟩], 7⟩]

/-- Witness for the amended C1 on a concrete trace. -/
theorem growth_monotonicity_witness :
    walObsOk ⟨0, 0⟩ demoTrace = true ∧
    (List.Chain' (· ≤ ·) ((⟨0, 0⟩ : WatchSt).lastSize :: runWal ⟨0, 0⟩ demoTrace) ∧
     List.Chain' (· ≤ ·) ((⟨0, 0⟩ : WatchSt).lastSize :: runFallback ⟨0, 0⟩ [2, 2, 5])) :=
  ⟨by decide, growth_monotonicity ⟨0, 0⟩ demoTrace [2, 2, 5] (by decide)⟩

/-- The query of `column_values`:
`WITH numbered AS (SELECT col, ROW_NUMBER() OVER (ORDER BY order_col) AS rn FROM t) SELECT col FROM numbered WHERE rn > offset AND rn <= offset + max_rows`.
The table is given as its rows in the ordering column's ascending order;
`ROW_NUMBER` pairs each row with its 1-based position, and the range filter
keeps positions in `(offset, offset + max_rows]`. -/
def columnValuesPage (tbl : List α) (offset maxRows : Nat) : List α :=
  (tbl.zip (List.range' 1 tbl.length)).filterMap fun p =>
    if offset < p.2 ∧ p.2 ≤ offset + maxRows then some p.1 else none

theorem pageInterval_eq (tbl : List α) (s lo hi : Nat) :
    (tbl.zip (List.range' s tbl.length)).filterMap
      (fun p => if lo < p.2 ∧ p.2 ≤ hi then some p.1 else none) =
    (tbl.drop (lo + 1 - s)).take (hi + 1 - max s (lo + 1)) := by
  induction tbl generalizing s with
  | nil => simp
  | cons a t ih =>
    have hzip : (a :: t).zip (List.range' s (a :: t).length) =
        (a, s) :: t.zip (List.range' (s + 1) t.length) := by
      rw [List.length_cons, List.range'_succ]
      rfl
    rw [hzip, List.filterMap_cons]
    by_cases hlos : lo < s
    · by_cases hshi : s ≤ hi
      · rw [if_pos ⟨hlos, hshi⟩, ih (s + 1)]
        have h2 : lo + 1 - (s + 1) = 0 := by omega
        have h3 : hi + 1 - max (s + 1) (lo + 1) = hi - s := by omega
        have h4 : lo + 1 - s = 0 := by omega
        have h5 : hi + 1 - max s (lo + 1) = (hi - s) + 1 := by omega
        rw [h2, h3, h4, h5, List.drop_zero, List.drop_zero, List.take_succ_cons]
      · rw [if_neg (fun hc => hshi hc.2), ih (s + 1)]
        have h2 : hi + 1 - max (s + 1) (lo + 1) = 0 := by omega
        have h3 : hi + 1 - max s (lo + 1) = 0 := by omega
        rw [h2, h3]
        simp
    · rw [if_neg (fun hc => hlos hc.1), ih (s + 1)]
      have h1 : lo + 1 - s = (lo - s) + 1 := by omega
      have h2 : lo + 1 - (s + 1) = lo - s := by omega
      have h3 : max (s + 1) (lo + 1) = max s (lo + 1) := by omega
      rw [h1, h2, h3, List.drop_succ_cons]

theorem columnValuesPage_eq_drop_take (tbl : List α) (o m : Nat) :
    columnValuesPage tbl o m = (tbl.drop o).take m := by
  have h := pageInterval_eq tbl 1 o (o + m)
  have h1 : o + 1 - 1 = o := by omega
  have h2 : o + m + 1 - max 1 (o + 1) = m := by omega
  rw [columnValuesPage, h, h1, h2]

theorem range'_drop (i s n : Nat) :
    (List.range' s n).drop i = List.range' (s + i) (n - i) := by
  induction i generalizing s n with
  | zero => simp
  | succ i ih =>
    cases n with
    | zero => simp
    | succ n =>
      rw [List.range'_succ, List.drop_succ_cons, ih (s + 1) n]
      have h1 : s + 1 + i = s + (i + 1) := by omega
      have h2 : n - i = n + 1 - (i + 1) := by omega
      rw [h1, h2]

theorem range'_take (i s n : Nat) :
    (List.range' s n).take i = List.range' s (min i n) := by
  induction i generalizing s n with
  | zero => simp
  | succ i ih =>
    cases n with
    | zero => simp
    | succ n =>
      rw [List.range'_succ, List.take_succ_cons, ih (s + 1) n]
      have h1 : min (i + 1) (n + 1) = (min i n) + 1 := by omega
      rw [h1, List.range'_succ]

/-- C3: on a table whose `K` rows are `1..K` in the ordering column's order,
`column_values` with 0-based offset `o < K` and page size `m` selects exactly
`min m (K - o)` values: the rows `o+1 .. o + min m (K - o)`, in ascending
order. -/
theorem paging_correct (K o m : Nat) (h : o < K) :
    columnValuesPage (List.range' 1 K) o m = List.range' (o + 1) (min m (K - o)) ∧
    (columnValuesPage (List.range' 1 K) o m).length = min m (K - o) := by
  have he : columnValuesPage (List.range' 1 K) o m = List.range' (o + 1) (min m (K - o)) := by
    rw [columnValuesPage_eq_drop_take, range'_drop, range'_take]
    have h1 : 1 + o = o + 1 := by omega
    rw [h1]
  refine ⟨he, ?_⟩
  rw [he, List.length_range']

/-- Witness for C3: the spec's own example, K = 5, o = 3, m = 3 returns the
two values 4, 5. -/
theorem paging_correct_witness :
    (3 : Nat) < 5 ∧
    columnValuesPage (List.range' 1 5) 3 3 = List.range' 4 (min 3 (5 - 3)) ∧
    columnValuesPage (List.range' 1 5) 3 3 = [4, 5] :=
  ⟨by decide, (paging_correct 5 3 3 (by decide)).1,
    ((paging_correct 5 3 3 (by decide)).1).trans (by decide)⟩

/-- Callback invocations a provider operation can make, in order. -/
inductive PEvent where
  | schemaCb
  | locationCb
  | successCb
  | failureCb
  | sizeCb (n : Nat)
  | valuesCb
deriving Repr, DecidableEq

/-- Portable column types produced by `_get_schema_from_information_schema`. -/
inductive ArrowType where
  | timestampUsUtc
  | float64
  | float32
  | int32
  | int64
  | int16
  | int8
  | boolean
  | strType
deriving Repr, DecidableEq

/-- The `data_type` mapping of `_get_schema_from_information_schema`:
upper-case the store-reported type (`(dtype or "").upper()`) and map it to an
arrow type, defaulting to string. -/
def mapDataType (dtype : Option String) : ArrowType :=
  let t := (dtype.getD "").toUpper
  if t = "TIMESTAMP" ∨ t = "TIMESTAMPTZ" ∨ t = "TIMESTAMP WITHOUT TIME ZONE" then .timestampUsUtc
  else if t = "DOUBLE" ∨ t = "DOUBLE PRECISION" then .float64
  else if t = "FLOAT" ∨ t = "REAL" then .float32
  else if t = "INT" ∨ t = "INTEGER" then .int32
  else if t = "LONG" ∨ t = "BIGINT" then .int64
  else if t = "SHORT" ∨ t = "SMALLINT" then .int16
  else if t = "BYTE" ∨ t = "TINYINT" then .int8
  else if t = "BOOLEAN" ∨ t = "BOOL" then .boolean
  else if t = "STRING" ∨ t = "SYMBOL" ∨ t = "TEXT" ∨ t = "VARCHAR" ∨ t = "CHAR" then .strType
  else .strType

/-- Field construction of `_get_schema_from_information_schema`: every
`(column_name, data_type)` row becomes a field, except the hidden `_rowid`
column, which is excluded. -/
def buildSchemaFields (rows : List (String × Option String)) :
    List (String × ArrowType) :=
  rows.filterMap fun p =>
    if p.1.toLower = "_rowid" then none else some (p.1, mapDataType p.2)

/-- Schema resolution on the rows returned by the `information_schema.columns`
query: an empty result (table missing or without columns) raises
(`RuntimeError`), otherwise the field list is produced. -/
def getSchemaFromInfoSchema (rows : List (String × Option String)) :
    Except String (List (String × ArrowType)) :=
  if rows.isEmpty then Except.error "table not found or no columns"
  else Except.ok (buildSchemaFields rows)

/-- Callback trace of `table_schema`: the body (metadata query plus schema
construction) either succeeds — one `schema_cb` — or raises into the
`except` clause — one `failure_cb`. `q` is the outcome of the metadata
query itself. -/
def tableSchemaRun (q : Except Unit (List (String × Option String))) : List PEvent :=
  match q with
  | .error _ => [.failureCb]
  | .ok rows =>
    match getSchemaFromInfoSchema rows with
    | .error _ => [.failureCb]
    | .ok _ => [.schemaCb]

/-- Callback trace of `table_locations`: emits the single location, then
`success_cb`. -/
def tableLocationsRun : List PEvent :=
  [.locationCb, .successCb]

/-- Callback trace of `subscribe_to_table_locations`: emits the single
location, then `success_cb`, and returns an unsubscribe closure. -/
def subscribeTableLocationsRun : List PEvent :=
  [.locationCb, .successCb]

/-- Callback trace of `table_location_size`: `size_cb` with the count, or
`failure_cb` if the count query raises. -/
def tableLocationSizeRun (q : Except Unit Nat) : List PEvent :=
  match q with
  | .error _ => [.failureCb]
  | .ok n => [.sizeCb n]

/-- Callback trace of `column_values`: `values_cb` with the batch, or
`failure_cb` if the paging query or the conversion raises. -/
def columnValuesRun (q : Except Unit Unit) : List PEvent :=
  match q with
  | .error _ => [.failureCb]
  | .ok _ => [.valuesCb]

/-- Callback trace of the `while not stop_event.is_set()` part of
`_wal_watch_loop`: each iteration's queries either return observations
(`size_cb` fires according to the mode's step) or raise — terminating the
loop with a single `failure_cb`. An exhausted input list models the stop
signal. -/
def loopEvents (useWal : Bool) : WatchSt → List (Except Unit WalObs) → List PEvent
  | _, [] => []
  | _, .error _ :: _ => [.failureCb]
  | st, .ok obs :: rest =>
    let res := if useWal then walStep st obs.newTxns obs.fullCount
               else fallbackStep st obs.fullCount
    (match res.2 with
     | some n => [PEvent.sizeCb n]
     | none => []) ++ loopEvents useWal res.1 rest

/-- Callback trace of `subscribe_to_table_location_size` as delivered by the
spawned `_wal_watch_loop` thread: if the initial sizing queries raise, one
`failure_cb`; otherwise `size_cb(initial)` then `success_cb`, followed by
the loop's events. `init` carries the initial size, the latest transaction
id and whether WAL tracking is usable. -/
def subscribeLocationSizeRun (init : Except Unit (Nat × Nat × Bool))
    (polls : List (Except Unit WalObs)) : List PEvent :=
  match init with
  | .error _ => [.failureCb]
  | .ok (size0, txn0, useWal) =>
    .sizeCb size0 :: .successCb :: loopEvents useWal ⟨txn0, size0⟩ polls

/-- C2 counterexample: a subscription that starts successfully and then hits a
query error in the watch loop invokes the success continuation once AND the
failure continuation once — two completion callbacks for one call, refuting
"exactly one of them, exactly once". -/
theorem watch_loop_double_completion :
    ((subscribeLocationSizeRun (.ok (0, 0, true)) [.error ()]).countP
        (fun e => decide (e = PEvent.successCb))) = 1 ∧
    ((subscribeLocationSizeRun (.ok (0, 0, true)) [.error ()]).countP
        (fun e => decide (e = PEvent.failureCb))) = 1 := by
  decide

theorem loopEvents_no_success (useWal : Bool) (polls : List (Except Unit WalObs))
    (st : WatchSt) :
    (loopEvents useWal st polls).countP (fun e => decide (e = PEvent.successCb)) = 0 := by
  induction polls generalizing st with
  | nil => simp [loopEvents]
  | cons p rest ih =>
    cases p with
    | error e => simp [loopEvents]
    | ok obs =>
      rw [loopEvents, List.countP_append]
      rw [ih]
      rcases hres : (if useWal then walStep st obs.newTxns obs.fullCount
          else fallbackStep st obs.fullCount).2 with _ | n
      · simp
      · simp

theorem loopEvents_failure_le_one (useWal : Bool) (polls : List (Except Unit WalObs))
    (st : WatchSt) :
    (loopEvents useWal st polls).countP (fun e => decide (e = PEvent.failureCb)) ≤ 1 := by
  induction polls generalizing st with
  | nil => simp [loopEvents]
  | cons p rest ih =>
    cases p with
    | error e => simp [loopEvents]
    | ok obs =>
      rw [loopEvents, List.countP_append]
      rcases hres : (if useWal then walStep st obs.newTxns obs.fullCount
          else fallbackStep st obs.fullCount).2 with _ | n
      · simpa using ih _
      · simpa using ih _

/-- C2 amended: `table_schema`, `table_locations`,
`subscribe_to_table_locations`, `table_location_size` and `column_values`
each invoke exactly one of their success/failure continuations exactly once
on every invocation; `subscribe_to_table_location_size` delivers its
continuations asynchronously from the watcher thread: the success
continuation at most once, the failure continuation at most once, and at
least one of the two — with both invoked when the watch loop fails after a
successful start. -/
theorem provider_callback_discipline :
    (∀ q : Except Unit (List (String × Option String)),
      (tableSchemaRun q).countP
        (fun e => decide (e = PEvent.schemaCb) || decide (e = PEvent.failureCb)) = 1) ∧
    tableLocationsRun.countP
      (fun e => decide (e = PEvent.successCb) || decide (e = PEvent.failureCb)) = 1 ∧
    subscribeTableLocationsRun.countP
      (fun e => decide (e = PEvent.successCb) || decide (e = PEvent.failureCb)) = 1 ∧
    (∀ q : Except Unit Nat,
      (tableLocationSizeRun q).countP
        (fun e => (match e with | PEvent.sizeCb _ => true | _ => false) ||
          decide (e = PEvent.failureCb)) = 1) ∧
    (∀ q : Except Unit Unit,
      (columnValuesRun q).countP
        (fun e => decide (e = PEvent.valuesCb) || decide (e = PEvent.failureCb)) = 1) ∧
    (∀ (init : Except Unit (Nat × Nat × Bool)) (polls : List (Except Unit WalObs)),
      (subscribeLocationSizeRun init polls).countP
        (fun e => decide (e = PEvent.successCb)) ≤ 1 ∧
      (subscribeLocationSizeRun init polls).countP
        (fun e => decide (e = PEvent.failureCb)) ≤ 1 ∧
      1 ≤ (subscribeLocationSizeRun init polls).countP
        (fun e => decide (e = PEvent.successCb) || decide (e = PEvent.failureCb))) := by
  refine ⟨?_, by decide, by decide, ?_, ?_, ?_⟩
  · intro q
    rcases q with e | rows
    · cases e
      decide
    · rw [tableSchemaRun]
      rcases h : getSchemaFromInfoSchema rows with e | fields <;> simp
  · intro q
    rcases q with e | n
    · cases e
      decide
    · simp [tableLocationSizeRun]
  · intro q
    rcases q with e | u
    · cases e
      decide
    · cases u
      decide
  · intro init polls
    rcases init with e | ⟨size0, txn0, useWal⟩
    · refine ⟨?_, ?_, ?_⟩ <;> simp [subscribeLocationSizeRun]
    · refine ⟨?_, ?_, ?_⟩
      · rw [subscribeLocationSizeRun]
        simp only [List.countP_cons]
        rw [loopEvents_no_success]
        simp
      · rw [subscribeLocationSizeRun]
        simp only [List.countP_cons]
        have := loopEvents_failure_le_one useWal polls ⟨txn0, size0⟩
        simp
        omega
      · rw [subscribeLocationSizeRun]
        simp only [List.countP_cons]
        simp

/-- C8: schema resolution fails — through the failure continuation — exactly
when the metadata query returns no rows (missing table or no columns) or the
query itself raises; for every table with at least one column row, the schema
callback fires with the constructed schema. -/
theorem schema_resolution (rows : List (String × Option String)) :
    (rows = [] → tableSchemaRun (.ok rows) = [PEvent.failureCb]) ∧
    (rows ≠ [] →
      tableSchemaRun (.ok rows) = [PEvent.schemaCb] ∧
      getSchemaFromInfoSchema rows = .ok (buildSchemaFields rows)) ∧
    tableSchemaRun (.error ()) = [PEvent.failureCb] := by
  refine ⟨fun h => by subst h; decide, fun h => ?_, by decide⟩
  have hne : rows.isEmpty = false := by
    simp [List.isEmpty_iff, h]
  have hok : getSchemaFromInfoSchema rows = .ok (buildSchemaFields rows) := by
    rw [getSchemaFromInfoSchema, hne]
    rfl
  refine ⟨?_, hok⟩
  rw [tableSchemaRun, hok]

/-- Witness for C8: the empty result fails, a one-column table resolves. -/
theorem schema_resolution_witness :
    tableSchemaRun (.ok []) = [PEvent.failureCb] ∧
    tableSchemaRun (.ok [("price", some "DOUBLE")]) = [PEvent.schemaCb] :=
  ⟨(schema_resolution []).1 rfl,
    ((schema_resolution [("price", some "DOUBLE")]).2.1 (by decide)).1⟩

/-- Thread-registry view of one backend instance: `_active_threads` (the dict
`table_name -> (stop_event, thread)`, modelled as an association list whose
first binding per key is the current one), the identities of watcher threads
that are currently live (started and not yet exited), and the stop events
that have been set. -/
structure RegistrySt where
  activeThreads : List (String × (Nat × Nat))
  liveThreads : List Nat
  signaled : List Nat
deriving Repr, DecidableEq

/-- The empty backend instance. -/
def regEmpty : RegistrySt :=
  ⟨[], [], []⟩

/-- `subscribe_to_table_location_size` as a registry transition. Under the
lock it looks up an existing `(stop, thread)` pair for the table; if present
it sets the stop event and then — outside the lock — joins the old thread
with a 1-second timeout. The old thread exits only when its loop reaches the
next `stop_event` check in time; `oldStopsInTime` records whether that
happened before the join timed out (on timeout the code logs a warning and
proceeds regardless). A new thread is then started and recorded under the
lock, replacing the dict entry. -/
def subscribe_size_threads (st : RegistrySt) (tableName : String)
    (newStop newTid : Nat) (oldStopsInTime : Bool) : RegistrySt :=
  match st.activeThreads.lookup tableName with
  | some (oldStop, oldTid) =>
    { activeThreads :=
        (tableName, (newStop, newTid)) ::
          st.activeThreads.filter (fun p => decide (p.1 ≠ tableName)),
      liveThreads :=
        (if oldStopsInTime then st.liveThreads.erase oldTid else st.liveThreads) ++ [newTid],
      signaled := oldStop :: st.signaled }
  | none =>
    { activeThreads := (tableName, (newStop, newTid)) :: st.activeThreads,
      liveThreads := st.liveThreads ++ [newTid],
      signaled := st.signaled }

/-- C5 counterexample: two subscriptions in succession for the same table,
where the first watcher does not reach its stop check within the join
timeout (it may be blocked in a query), leave TWO live watcher threads — the
code logs "didn't stop cleanly" and starts the new thread anyway, so no
bounded wait guarantees a single live watcher. -/
theorem double_subscribe_two_live :
    (subscribe_size_threads (subscribe_size_threads regEmpty "trades" 1 101 true)
        "trades" 2 102 false).liveThreads = [101, 102] ∧
    (subscribe_size_threads (subscribe_size_threads regEmpty "trades" 1 101 true)
        "trades" 2 102 false).liveThreads.length = 2 := by
  decide

theorem lookup_none_countP (name : String) (l : List (String × (Nat × Nat)))
    (h : l.lookup name = none) :
    l.countP (fun p => p.1 == name) = 0 := by
  induction l with
  | nil => rfl
  | cons p rest ih =>
    cases hbe : (name == p.1) with
    | true =>
      cases p with
      | mk k v =>
        simp only [List.lookup, hbe] at h
        exact absurd h (by simp)
    | false =>
      have h2 : rest.lookup name = none := by
        cases p with
        | mk k v =>
          simpa [List.lookup, hbe] using h
      have hf : (p.1 == name) = false := by
        cases hq : (p.1 == name) with
        | false => rfl
        | true =>
          have hpe : p.1 = name := eq_of_beq hq
          rw [hpe] at hbe
          simp at hbe
      simp [List.countP_cons, hf, ih h2]

theorem countP_filter_ne (name : String) (l : List (String × (Nat × Nat))) :
    (l.filter (fun p => decide (p.1 ≠ name))).countP (fun p => p.1 == name) = 0 := by
  induction l with
  | nil => rfl
  | cons p rest ih =>
    by_cases hp : p.1 ≠ name
    · rw [List.filter_cons_of_pos (by simpa using hp), List.countP_cons]
      have hf : (p.1 == name) = false := by
        cases hq : (p.1 == name) with
        | false => rfl
        | true => exact absurd (eq_of_beq hq) hp
      simp [hf, ih]
    · rw [List.filter_cons_of_neg (by simpa using hp)]
      exact ih

/-- C5 amended: after any `subscribe_to_table_location_size` call the
registry maps the table name to exactly one (stop event, watcher) pair; and
two subscriptions in succession from a fresh instance leave exactly one live
watcher thread — the new one — provided the first watcher observes its stop
signal within the join timeout. -/
theorem single_watcher_amended :
    (∀ (st : RegistrySt) (name : String) (s t : Nat) (e : Bool),
      ((subscribe_size_threads st name s t e).activeThreads.countP
        (fun p => p.1 == name)) = 1) ∧
    (∀ (name : String) (s1 t1 s2 t2 : Nat) (e1 : Bool),
      (subscribe_size_threads (subscribe_size_threads regEmpty name s1 t1 e1)
          name s2 t2 true).liveThreads = [t2]) := by
  constructor
  · intro st name s t e
    rcases hl : st.activeThreads.lookup name with _ | ⟨oldStop, oldTid⟩
    · rw [subscribe_size_threads, hl]
      simp only [List.countP_cons]
      rw [lookup_none_countP name _ hl]
      simp
    · rw [subscribe_size_threads, hl]
      simp only [List.countP_cons]
      rw [countP_filter_ne]
      simp
  · intro name s1 t1 s2 t2 e1
    have h1 : subscribe_size_threads regEmpty name s1 t1 e1 =
        ⟨[(name, (s1, t1))], [t1], []⟩ := by
      rw [subscribe_size_threads]
      rfl
    rw [h1, subscribe_size_threads]
    have hl : ([(name, (s1, t1))] : List (String × (Nat × Nat))).lookup name =
        some (s1, t1) := by
      simp [List.lookup]
    rw [hl]
    simp [List.erase_cons_head]

end QdbBackend
